import Mathlib

/-
  Verification development for the temporal matrix factorization notebook
  (TemporalMatrixFactorization.ipynb).

  The notebook file holds two documents.  The first one defines the plain
  temporal matrix factorization pipeline: update_cg (whose parameter is
  spelled ver while its body reads and writes var), ell_w, conj_grad_w,
  ell_x, conj_grad_x, generate_Psi (no season), tmf and var4cast.  The
  second one adds the nonstationary pipeline: a seasonal generate_Psi, a
  corrected update_cg (parameter spelled var), notmf, notmf_dic, a seasonal
  var4cast and rolling4cast.  We embed the first document in namespace TMF
  and the final state of the second document in namespace NoTMF.

  Modelling conventions:
  * numpy arrays become the structure Mat: explicit row and column counts
    plus a total entry function; entries outside the advertised shape are
    irrelevant junk and theorems only constrain entries inside the shape.
  * floating point numbers become rationals.  Rational division is total
    with x / 0 = 0; where a zero denominator matters (claim C6) the
    theorems speak about control flow, which is what the claim is about,
    and the comments record the IEEE behaviour (inf or NaN, no exception).
  * np.linalg.pinv is an external library routine, not part of this
    repository, so it is passed in as an abstract function argument.
  * the random initial factors 0.01 * randn(...) are passed in as explicit
    arguments W0, X0, A0 (the draws of the ambient random state).
  * fallible Python code (an unbound local, a name that may be unbound at
    the return statement) is embedded with Except String.
-/

/-- Left fold summation of f 0 + f 1 + ... + f (n-1); the shape in which
numpy accumulates inner products and matrix products here. -/
def sumTo : ℕ → (ℕ → ℚ) → ℚ
  | 0, _ => 0
  | n + 1, f => sumTo n f + f n

/-- Dense matrix model for a numpy 2-d array: an advertised shape together
with a total entry function.  Entries at indices outside the shape are
meaningless and never constrained. -/
structure Mat where
  rows : ℕ
  cols : ℕ
  entry : ℕ → ℕ → ℚ

instance : Inhabited Mat := ⟨⟨0, 0, fun _ _ => 0⟩⟩

/-- Matrix product; the contraction length is the column count of the left
factor, exactly as numpy matmul behaves on shape-compatible operands. -/
def Mat.mul (A B : Mat) : Mat :=
  ⟨A.rows, B.cols, fun i j => sumTo A.cols fun k => A.entry i k * B.entry k j⟩

def Mat.transpose (A : Mat) : Mat :=
  ⟨A.cols, A.rows, fun i j => A.entry j i⟩

/-- Elementwise product, used for masking with the observation indicator. -/
def Mat.hadamard (A B : Mat) : Mat :=
  ⟨A.rows, A.cols, fun i j => A.entry i j * B.entry i j⟩

def Mat.add (A B : Mat) : Mat :=
  ⟨A.rows, A.cols, fun i j => A.entry i j + B.entry i j⟩

def Mat.sub (A B : Mat) : Mat :=
  ⟨A.rows, A.cols, fun i j => A.entry i j - B.entry i j⟩

def Mat.smul (c : ℚ) (A : Mat) : Mat :=
  ⟨A.rows, A.cols, fun i j => c * A.entry i j⟩

def Mat.zeros (r c : ℕ) : Mat := ⟨r, c, fun _ _ => 0⟩

def Mat.eye (n : ℕ) : Mat := ⟨n, n, fun i j => if i = j then 1 else 0⟩

/-- np.append(A, B, axis = 1): horizontal concatenation. -/
def Mat.appendCols (A B : Mat) : Mat :=
  ⟨A.rows, A.cols + B.cols, fun i j =>
    if j < A.cols then A.entry i j else B.entry i (j - A.cols)⟩

/-- The column slice M[:, a : b]. -/
def Mat.colSlice (M : Mat) (a b : ℕ) : Mat :=
  ⟨M.rows, b - a, fun i j => M.entry i (a + j)⟩

/-- The Python slice M[:, -k:].  For k = 0 Python reads M[:, 0:], the whole
matrix; for 0 < k it is the last k columns (clamped at the start for large
k, which natural subtraction reproduces). -/
def Mat.negTail (M : Mat) (k : ℕ) : Mat :=
  if k = 0 then M else M.colSlice (M.cols - k) M.cols

/-- The Python slice M[:, :-k].  For k = 0 Python reads M[:, :0], the empty
matrix; for 0 < k it drops the last k columns. -/
def Mat.negDrop (M : Mat) (k : ℕ) : Mat :=
  if k = 0 then M.colSlice 0 0 else M.colSlice 0 (M.cols - k)

/-- The in-place row block write M[lo : hi, :] = N. -/
def Mat.writeRows (M N : Mat) (lo hi : ℕ) : Mat :=
  ⟨M.rows, M.cols, fun i j =>
    if lo ≤ i ∧ i < hi then N.entry (i - lo) j else M.entry i j⟩

/-- The in-place column write M[:, c] = v. -/
def Mat.setCol (M : Mat) (c : ℕ) (v : ℕ → ℚ) : Mat :=
  ⟨M.rows, M.cols, fun i j => if j = c then v i else M.entry i j⟩

/-- A matrix buffer initialised to zeros((r, c)) and accumulated with the
augmented assignment sum of f 0, ..., f (n-1). -/
def Mat.sumN (n r c : ℕ) (f : ℕ → Mat) : Mat :=
  ⟨r, c, fun i j => sumTo n fun k => (f k).entry i j⟩

/-- The boolean observation mask sparse_mat != 0, kept as a 0/1 matrix
because numpy multiplies booleans back into the arithmetic. -/
def maskOf (M : Mat) : Mat :=
  ⟨M.rows, M.cols, fun i j => if M.entry i j = 0 then 0 else 1⟩

/-- Shape-and-visible-entry equality: what numpy array equality observes. -/
def Mat.Eqv (A B : Mat) : Prop :=
  A.rows = B.rows ∧ A.cols = B.cols ∧
    ∀ i, i < A.rows → ∀ j, j < A.cols → A.entry i j = B.entry i j

/-- Flat vector model for a numpy 1-d array. -/
structure Vec where
  len : ℕ
  val : ℕ → ℚ

/-- np.reshape(M, -1, order = F): column-major flattening. -/
def vecF (M : Mat) : Vec :=
  ⟨M.rows * M.cols, fun p => M.entry (p % M.rows) (p / M.rows)⟩

/-- np.reshape(v, (r, c), order = F): column-major unflattening. -/
def unvecF (r c : ℕ) (v : Vec) : Mat :=
  ⟨r, c, fun i j => v.val (j * r + i)⟩

def Vec.add (v w : Vec) : Vec := ⟨v.len, fun p => v.val p + w.val p⟩

def Vec.sub (v w : Vec) : Vec := ⟨v.len, fun p => v.val p - w.val p⟩

def Vec.smul (c : ℚ) (v : Vec) : Vec := ⟨v.len, fun p => c * v.val p⟩

/-- np.inner of two equal-length 1-d arrays. -/
def Vec.inner (v w : Vec) : ℚ := sumTo v.len fun p => v.val p * w.val p

/-- Tests whether an Except-valued call returned normally. -/
def exceptOk {α : Type} : Except String α → Bool
  | Except.ok _ => true
  | Except.error _ => false

/-- The W-operator ell_w(ind, W, X, rho) = X ((Wᵀ X) ⊙ ind)ᵀ + rho W.  The
two notebook documents define it with identical text, so it is shared. -/
def ell_w (ind W X : Mat) (rho : ℚ) : Mat :=
  (X.mul ((Mat.hadamard (W.transpose.mul X) ind).transpose)).add (Mat.smul rho W)

/-- The buffer temp = zeros((d * rank, cols)) filled by the loop
for k in 1..d: temp[(k-1) rank : k rank, :] = X Psi[k]ᵀ.  This loop text
occurs in ell_x, tmf, notmf and notmf_dic; it is shared here.  (In tmf and
notmf the buffer is allocated once outside the outer loop, but every one
of its d * rank rows is rewritten on every pass, so the reuse is
unobservable and a fresh construction per pass is equivalent.) -/
def buildTemp (X : Mat) (Psi : List Mat) (d rank cols : ℕ) : Mat :=
  (List.range d).foldl
    (fun acc k0 =>
      Mat.writeRows acc (X.mul ((Psi.getD (k0 + 1) default).transpose))
        (k0 * rank) ((k0 + 1) * rank))
    (Mat.zeros (d * rank) cols)

/-- The X-operator ell_x, shared verbatim by both notebook documents. -/
def ell_x (ind W X A : Mat) (Psi : List Mat) (d : ℕ) (lambda0 rho : ℚ) : Mat :=
  let rank := X.rows
  let dim2 := X.cols
  let temp := buildTemp X Psi d rank ((Psi.getD 0 default).rows)
  let temp1 := (X.mul ((Psi.getD 0 default).transpose)).sub (A.mul temp)
  let temp2 := Mat.sumN d rank dim2 fun k =>
    (((A.colSlice (k * rank) ((k + 1) * rank)).transpose.mul temp1).mul
      (Psi.getD (k + 1) default))
  ((W.mul (Mat.hadamard (W.transpose.mul X) ind)).add (Mat.smul rho X)).add
    (Mat.smul lambda0 ((temp1.mul (Psi.getD 0 default)).sub temp2))

/-- The closed form VAR coefficient update A = X Psi[0]ᵀ pinv(temp), with
temp the stacked lag buffer.  The very same code line appears in tmf,
notmf and notmf_dic; all three embeddings call this definition. -/
def var_A (pinv : Mat → Mat) (X : Mat) (Psi : List Mat) (d rank cols : ℕ) : Mat :=
  (X.mul ((Psi.getD 0 default).transpose)).mul (pinv (buildTemp X Psi d rank cols))

/-- The reshaped lag window used by both var4cast variants: entry p of
X_hat[:, c - arange(1, d+1)].T.reshape(dim1 * d) is
X_hat[p mod dim1, c - 1 - p div dim1] (lag 1 + p div dim1, most recent
lag first). -/
def lagConcat (Xh : Mat) (dim1 c : ℕ) : ℕ → ℚ :=
  fun p => Xh.entry (p % dim1) (c - 1 - p / dim1)

/-- Matrix-vector product row i over contraction length n. -/
def matVec (A : Mat) (n : ℕ) (v : ℕ → ℚ) : ℕ → ℚ :=
  fun i => sumTo n fun p => A.entry i p * v p

namespace TMF

/-- First document update_cg.  Its parameter is spelled ver but the body
executes var = var + alpha * q: the assignment makes var a local of the
function, so the read of var on the right hand side is a read of a local
that was never assigned, and Python raises UnboundLocalError on every
call.  The none below is the (absent) prior binding of var. -/
def update_cg (ver r q Aq : Vec) (rold : ℚ) :
    Except String (Vec × Vec × Vec × ℚ) :=
  let alpha := rold / Vec.inner q Aq
  match (none : Option Vec) with
  | none => Except.error "UnboundLocalError: var"
  | some var =>
    let var := var.add (Vec.smul alpha q)
    let r := r.sub (Vec.smul alpha Aq)
    let rnew := Vec.inner r r
    let q := r.add (Vec.smul (rnew / rold) q)
    Except.ok (var, r, q, rnew)

/-- The conjugate gradient loop of the first document conj_grad_w. -/
def cg_loop_w (ind X : Mat) (rho : ℚ) (rank dim1 : ℕ) :
    ℕ → Vec → Vec → Vec → ℚ → Except String Vec
  | 0, w, _, _, _ => Except.ok w
  | n + 1, w, r, q, rold =>
    let Q := unvecF rank dim1 q
    let Aq := vecF (ell_w ind Q X rho)
    match update_cg w r q Aq rold with
    | Except.error e => Except.error e
    | Except.ok (w, r, q, rold) => cg_loop_w ind X rho rank dim1 n w r q rold

/-- First document conj_grad_w (its default maxiter is 5). -/
def conj_grad_w (sparse_mat ind W X : Mat) (rho : ℚ) (maxiter : ℕ) :
    Except String Mat :=
  let rank := W.rows
  let dim1 := W.cols
  let w := vecF W
  let r := vecF ((X.mul sparse_mat.transpose).sub (ell_w ind W X rho))
  let q := r
  let rold := Vec.inner r r
  (cg_loop_w ind X rho rank dim1 maxiter w r q rold).map (unvecF rank dim1)

/-- The conjugate gradient loop of the first document conj_grad_x. -/
def cg_loop_x (ind W A : Mat) (Psi : List Mat) (d : ℕ) (lambda0 rho : ℚ)
    (rank dim2 : ℕ) : ℕ → Vec → Vec → Vec → ℚ → Except String Vec
  | 0, x, _, _, _ => Except.ok x
  | n + 1, x, r, q, rold =>
    let Q := unvecF rank dim2 q
    let Aq := vecF (ell_x ind W Q A Psi d lambda0 rho)
    match update_cg x r q Aq rold with
    | Except.error e => Except.error e
    | Except.ok (x, r, q, rold) =>
      cg_loop_x ind W A Psi d lambda0 rho rank dim2 n x r q rold

/-- First document conj_grad_x (its default maxiter is 5). -/
def conj_grad_x (sparse_mat ind W X A : Mat) (Psi : List Mat) (d : ℕ)
    (lambda0 rho : ℚ) (maxiter : ℕ) : Except String Mat :=
  let rank := X.rows
  let dim2 := X.cols
  let x := vecF X
  let r := vecF ((W.mul sparse_mat).sub (ell_x ind W X A Psi d lambda0 rho))
  let q := r
  let rold := Vec.inner r r
  (cg_loop_x ind W A Psi d lambda0 rho rank dim2 maxiter x r q rold).map
    (unvecF rank dim2)

/-- First document generate_Psi(T, d), the m = 0 temporal operators. -/
def generate_Psi (T d : ℕ) : List Mat :=
  (List.range (d + 1)).map fun k =>
    if k = 0 then
      Mat.appendCols (Mat.zeros (T - d) d) (Mat.eye (T - d))
    else
      Mat.appendCols
        (Mat.appendCols (Mat.zeros (T - d) (d - k)) (Mat.eye (T - d)))
        (Mat.zeros (T - d) k)

/-- The outer alternating loop of tmf.  The state is (W, X, A, mat_hat);
mat_hat is Option-valued because the Python name mat_hat is only bound
once the first iteration has run. -/
def tmf_loop (pinv : Mat → Mat) (sparse_mat ind : Mat) (Psi : List Mat)
    (rank d : ℕ) (lambda0 rho : ℚ) (tcols : ℕ) :
    ℕ → Mat × Mat × Mat × Option Mat →
    Except String (Mat × Mat × Mat × Option Mat)
  | 0, s => Except.ok s
  | n + 1, (W, X, A, _) =>
    match conj_grad_w sparse_mat ind W X rho 5 with
    | Except.error e => Except.error e
    | Except.ok W =>
      match conj_grad_x sparse_mat ind W X A Psi d lambda0 rho 5 with
      | Except.error e => Except.error e
      | Except.ok X =>
        let A := var_A pinv X Psi d rank tcols
        let mat_hat := W.transpose.mul X
        tmf_loop pinv sparse_mat ind Psi rank d lambda0 rho tcols n
          (W, X, A, some mat_hat)

/-- First document tmf.  W0, X0, A0 stand for the random initial draws
0.01 * randn(...); pinv is the external np.linalg.pinv. -/
def tmf (pinv : Mat → Mat) (sparse_mat : Mat) (rank d : ℕ)
    (lambda0 rho : ℚ) (maxiter : ℕ) (W0 X0 A0 : Mat) :
    Except String (Mat × Mat × Mat × Mat) :=
  let dim2 := sparse_mat.cols
  let ind := maskOf sparse_mat
  let Psi := generate_Psi dim2 d
  match tmf_loop pinv sparse_mat ind Psi rank d lambda0 rho (dim2 - d) maxiter
      (W0, X0, A0, none) with
  | Except.error e => Except.error e
  | Except.ok (W, X, A, some mat_hat) => Except.ok (mat_hat, W, X, A)
  | Except.ok (_, _, _, none) => Except.error "NameError: mat_hat"

/-- The extended array X_hat built inside the first document var4cast:
X with delta zero columns appended, then column dim2 + t filled with
A times the most-recent-first concatenation of the d previous columns,
for t = 0, ..., delta - 1 in order. -/
def var4cast_ext (X A : Mat) (d delta : ℕ) : Mat :=
  let dim1 := X.rows
  let dim2 := X.cols
  (List.range delta).foldl
    (fun M t => M.setCol (dim2 + t)
      (matVec A (dim1 * d) (lagConcat M dim1 (dim2 + t))))
    (Mat.appendCols X (Mat.zeros dim1 delta))

/-- First document var4cast.  Note the return value X_hat[:, -delta:]. -/
def var4cast (X A : Mat) (d delta : ℕ) : Mat :=
  (var4cast_ext X A d delta).negTail delta

end TMF

namespace NoTMF

/-- Second document update_cg: the corrected version whose parameter is
spelled var, so it runs through and returns normally.  There is no guard
on the denominator np.inner(q, Aq): the division is performed
unconditionally (under IEEE floats a zero denominator yields inf or NaN
with only a warning; in this exact model rational division by zero is 0;
either way the call returns normally). -/
def update_cg (var r q Aq : Vec) (rold : ℚ) : Vec × Vec × Vec × ℚ :=
  let alpha := rold / Vec.inner q Aq
  let var := var.add (Vec.smul alpha q)
  let r := r.sub (Vec.smul alpha Aq)
  let rnew := Vec.inner r r
  let q := r.add (Vec.smul (rnew / rold) q)
  (var, r, q, rnew)

/-- The conjugate gradient loop of the second document conj_grad_w. -/
def cg_loop_w (ind X : Mat) (rho : ℚ) (rank dim1 : ℕ) :
    ℕ → Vec → Vec → Vec → ℚ → Vec
  | 0, w, _, _, _ => w
  | n + 1, w, r, q, rold =>
    let Q := unvecF rank dim1 q
    let Aq := vecF (ell_w ind Q X rho)
    match update_cg w r q Aq rold with
    | (w, r, q, rold) => cg_loop_w ind X rho rank dim1 n w r q rold

/-- Second document conj_grad_w (its default maxiter is 5). -/
def conj_grad_w (sparse_mat ind W X : Mat) (rho : ℚ) (maxiter : ℕ) : Mat :=
  let rank := W.rows
  let dim1 := W.cols
  let w := vecF W
  let r := vecF ((X.mul sparse_mat.transpose).sub (ell_w ind W X rho))
  let q := r
  let rold := Vec.inner r r
  unvecF rank dim1 (cg_loop_w ind X rho rank dim1 maxiter w r q rold)

/-- The conjugate gradient loop of the second document conj_grad_x. -/
def cg_loop_x (ind W A : Mat) (Psi : List Mat) (d : ℕ) (lambda0 rho : ℚ)
    (rank dim2 : ℕ) : ℕ → Vec → Vec → Vec → ℚ → Vec
  | 0, x, _, _, _ => x
  | n + 1, x, r, q, rold =>
    let Q := unvecF rank dim2 q
    let Aq := vecF (ell_x ind W Q A Psi d lambda0 rho)
    match update_cg x r q Aq rold with
    | (x, r, q, rold) => cg_loop_x ind W A Psi d lambda0 rho rank dim2 n x r q rold

/-- Second document conj_grad_x (its default maxiter is 5). -/
def conj_grad_x (sparse_mat ind W X A : Mat) (Psi : List Mat) (d : ℕ)
    (lambda0 rho : ℚ) (maxiter : ℕ) : Mat :=
  let rank := X.rows
  let dim2 := X.cols
  let x := vecF X
  let r := vecF ((W.mul sparse_mat).sub (ell_x ind W X A Psi d lambda0 rho))
  let q := r
  let rold := Vec.inner r r
  unvecF rank dim2 (cg_loop_x ind W A Psi d lambda0 rho rank dim2 maxiter x r q rold)

/-- Second document generate_Psi(T, d, season): seasonal differencing
operators.  The inner block is the sum of a negated same-row selector
shifted season columns earlier and an identity selector at the same-time
position. -/
def generate_Psi (T d season : ℕ) : List Mat :=
  (List.range (d + 1)).map fun k =>
    let core :=
      (Mat.appendCols (Mat.smul (-1) (Mat.eye (T - d - season)))
          (Mat.zeros (T - d - season) season)).add
        (Mat.appendCols (Mat.zeros (T - d - season) season)
          (Mat.eye (T - d - season)))
    if k = 0 then
      Mat.appendCols (Mat.zeros (T - d - season) d) core
    else
      Mat.appendCols
        (Mat.appendCols (Mat.zeros (T - d - season) (d - k)) core)
        (Mat.zeros (T - d - season) k)

/-- The outer alternating loop of notmf: per pass, conjugate gradient
refinement of W, then of X (with the current A), then the closed form
VAR update of A from the refined X, then mat_hat = Wᵀ X.  mat_hat is
Option-valued because the Python name is only bound once the first
iteration has run.  The show_iter diagnostic printing in the source
affects no returned value and is omitted. -/
def notmf_loop (pinv : Mat → Mat) (sparse_mat ind : Mat) (Psi : List Mat)
    (rank d : ℕ) (lambda0 rho : ℚ) (tcols : ℕ) :
    ℕ → Mat × Mat × Mat × Option Mat → Mat × Mat × Mat × Option Mat
  | 0, s => s
  | n + 1, (W, X, A, _) =>
    let W := conj_grad_w sparse_mat ind W X rho 5
    let X := conj_grad_x sparse_mat ind W X A Psi d lambda0 rho 5
    let A := var_A pinv X Psi d rank tcols
    let mat_hat := W.transpose.mul X
    notmf_loop pinv sparse_mat ind Psi rank d lambda0 rho tcols n
      (W, X, A, some mat_hat)

/-- Second document notmf.  Rationals carry no NaN, so the branch on
np.isnan(sparse_mat).any() resolves to the False arm: ind is
sparse_mat != 0.  dense_mat only feeds the held-out diagnostic printing
(pos_test, dense_test), which affects no returned value.  W0, X0, A0 are
the random initial draws and pinv is the external np.linalg.pinv. -/
def notmf (pinv : Mat → Mat) (dense_mat sparse_mat : Mat) (rank d : ℕ)
    (lambda0 rho : ℚ) (season maxiter : ℕ) (W0 X0 A0 : Mat) :
    Except String (Mat × Mat × Mat × Mat) :=
  let dim2 := sparse_mat.cols
  let ind := maskOf sparse_mat
  let Psi := generate_Psi dim2 d season
  match notmf_loop pinv sparse_mat ind Psi rank d lambda0 rho
      (dim2 - d - season) maxiter (W0, X0, A0, none) with
  | (W, X, A, some mat_hat) => Except.ok (mat_hat, W, X, A)
  | (_, _, _, none) => Except.error "NameError: mat_hat"

/-- Second document notmf_dic: one conjugate gradient pass on X with W
held fixed, then the closed form VAR update of A. -/
def notmf_dic (pinv : Mat → Mat) (obs W X A : Mat) (d : ℕ)
    (lambda0 rho : ℚ) (season : ℕ) : Mat × Mat :=
  let dim2 := obs.cols
  let rank := X.rows
  let ind := maskOf obs
  let Psi := generate_Psi dim2 d season
  let X := conj_grad_x obs ind W X A Psi d lambda0 rho 5
  let A := var_A pinv X Psi d rank (dim2 - d - season)
  (X, A)

/-- Second document var4cast: forecast the seasonally differenced series,
then reconstruct absolute forecasts column by column, reusing already
forecast columns when dim2 - season + t reaches past dim2. -/
def var4cast (X A : Mat) (d delta season : ℕ) : Mat :=
  let dim1 := X.rows
  let dim2 := X.cols
  let diff := (X.colSlice season X.cols).sub (X.negDrop season)
  let X_hat :=
    (List.range delta).foldl
      (fun M t => M.setCol (dim2 - season + t)
        (matVec A (dim1 * d) (lagConcat M dim1 (dim2 - season + t))))
      (Mat.appendCols diff (Mat.zeros dim1 delta))
  (List.range delta).foldl
    (fun M t => M.setCol (dim2 + t)
      (fun i => M.entry i (dim2 - season + t) + X_hat.entry i (dim2 - season + t)))
    (Mat.appendCols X (Mat.zeros dim1 delta))

/-- int(np.ceil(pred_step / delta)) for a positive integer delta. -/
def maxCount (pred_step delta : ℕ) : ℕ := (pred_step + delta - 1) / delta

/-- The loop state of rolling4cast: the current factors, the latest
extrapolated factor matrix X_new, and the entry buffer of the forecast
matrix mat_hat (whose shape is fixed up front by np.zeros). -/
structure RState where
  W : Mat
  X : Mat
  A : Mat
  Xnew : Mat
  hat : ℕ → ℕ → ℚ

/-- One pass of the rolling4cast loop at step index t: at t = 0 a full
notmf fit on the first start columns; at t ≥ 1 notmf_dic refits (X, A)
on the window grown by t * delta columns, warm-started from the previous
X_new, with W passed through unchanged from the state.  Then X_new is
extrapolated delta steps and Wᵀ X_new[:, -delta:] is written into the
forecast buffer at columns t delta, ..., (t+1) delta - 1.  The IntProgress
widget calls in the source are display only and omitted. -/
def rollStep (pinv : Mat → Mat) (dense_mat sparse_mat : Mat)
    (start delta rank d : ℕ) (lambda0 rho : ℚ) (season maxiter : ℕ)
    (W0 X0 A0 : Mat) (t : ℕ) (s : RState) : Except String RState :=
  let fit : Except String (Mat × Mat × Mat) :=
    if t = 0 then
      (notmf pinv (dense_mat.colSlice 0 start) (sparse_mat.colSlice 0 start)
        rank d lambda0 rho season maxiter W0 X0 A0).map
        fun r => (r.2.1, r.2.2.1, r.2.2.2)
    else
      let XA := notmf_dic pinv (sparse_mat.colSlice 0 (start + t * delta))
        s.W s.Xnew s.A d lambda0 rho season
      Except.ok (s.W, XA.1, XA.2)
  match fit with
  | Except.error e => Except.error e
  | Except.ok (W, X, A) =>
    let Xnew := var4cast X A d delta season
    let fc := W.transpose.mul (Xnew.negTail delta)
    Except.ok ⟨W, X, A, Xnew,
      fun i j => if t * delta ≤ j ∧ j < (t + 1) * delta
        then fc.entry i (j - t * delta) else s.hat i j⟩

/-- Runs count passes of the rolling loop starting at step index t. -/
def rollGo (pinv : Mat → Mat) (dense_mat sparse_mat : Mat)
    (start delta rank d : ℕ) (lambda0 rho : ℚ) (season maxiter : ℕ)
    (W0 X0 A0 : Mat) : ℕ → ℕ → RState → Except String RState
  | _, 0, s => Except.ok s
  | t, n + 1, s =>
    match rollStep pinv dense_mat sparse_mat start delta rank d lambda0 rho
        season maxiter W0 X0 A0 t s with
    | Except.error e => Except.error e
    | Except.ok s =>
      rollGo pinv dense_mat sparse_mat start delta rank d lambda0 rho
        season maxiter W0 X0 A0 (t + 1) n s

/-- Second document rolling4cast.  The forecast buffer is allocated as
np.zeros((dim1, max_count * delta)); the loop variables W, X, A, X_new
are unbound in Python before the first pass and, whenever max_count ≥ 1,
are all assigned at t = 0 before any read, so the zero initial state
below is unobservable under the claims (which assume pred_step ≥ 1 and
delta ≥ 1).  The MAPE and RMSE evaluation at the end only prints and
affects no returned value. -/
def rollInit : RState :=
  ⟨Mat.zeros 0 0, Mat.zeros 0 0, Mat.zeros 0 0, Mat.zeros 0 0, fun _ _ => 0⟩

def rolling4cast (pinv : Mat → Mat) (dense_mat sparse_mat : Mat)
    (pred_step delta rank d : ℕ) (lambda0 rho : ℚ) (season maxiter : ℕ)
    (W0 X0 A0 : Mat) : Except String (Mat × Mat × Mat × Mat) :=
  let dim1 := sparse_mat.rows
  let T := sparse_mat.cols
  let start := T - pred_step
  let mc := maxCount pred_step delta
  (rollGo pinv dense_mat sparse_mat start delta rank d lambda0 rho season
      maxiter W0 X0 A0 0 mc rollInit).map
    fun s => (⟨dim1, mc * delta, s.hat⟩, s.W, s.X, s.A)

end NoTMF

/-
  Concrete fixtures used by closed counterexample and witness theorems.
  pinvT is an arbitrary stand-in for the abstract external pseudoinverse
  argument: the instantiated theorems are structural and hold for every
  choice of that argument.
-/

def pinvT : Mat → Mat := fun M => M.transpose

/-- The 1 by 2 matrix [[1, 2]]. -/
def X12 : Mat := ⟨1, 2, fun _ j => if j = 0 then 1 else if j = 1 then 2 else 0⟩

/-- The 1 by 1 matrix [[3]]. -/
def A11 : Mat := ⟨1, 1, fun _ _ => 3⟩

/-- The 1 by 3 matrix [[1, 2, 3]]. -/
def X13 : Mat := ⟨1, 3, fun _ j =>
  if j = 0 then 1 else if j = 1 then 2 else if j = 2 then 3 else 0⟩

/-- The 2 by 4 matrix with entry 10 i + j. -/
def X24 : Mat := ⟨2, 4, fun i j => (i : ℚ) * 10 + j⟩

/-- An all-zero length 2 vector. -/
def vz2 : Vec := ⟨2, fun _ => 0⟩

/-- An all-one length 2 vector. -/
def vo2 : Vec := ⟨2, fun _ => 1⟩

/-- C10: the first document update_cg reads the never-assigned local var
(its parameter is spelled ver), so every call fails with the unbound
local error; hence the first document conj_grad_w and conj_grad_x fail
on every run with maxiter at least 1, while maxiter = 0, which never
reaches update_cg, returns a result. -/
theorem update_cg_v1_always_fails (ver r q Aq : Vec) (rold : ℚ) (n : ℕ)
    (sm ind W X A : Mat) (Psi : List Mat) (d : ℕ) (lambda0 rho : ℚ) :
    TMF.update_cg ver r q Aq rold = Except.error "UnboundLocalError: var" ∧
    TMF.conj_grad_w sm ind W X rho (n + 1)
      = Except.error "UnboundLocalError: var" ∧
    TMF.conj_grad_x sm ind W X A Psi d lambda0 rho (n + 1)
      = Except.error "UnboundLocalError: var" ∧
    exceptOk (TMF.conj_grad_w sm ind W X rho 0) = true ∧
    exceptOk (TMF.conj_grad_x sm ind W X A Psi d lambda0 rho 0) = true := by
  refine ⟨rfl, ?_, ?_, rfl, rfl⟩ <;>
    simp [TMF.conj_grad_w, TMF.conj_grad_x, TMF.cg_loop_w, TMF.cg_loop_x,
      TMF.update_cg, Except.map]

/-- C1: evaluating tmf at a concrete input (the all-one 2 by 3 matrix,
rank 1, order 1, one outer iteration) shows that the run aborts inside
the very first conjugate gradient step with the unbound local error of
the first document update_cg, instead of completing any outer iteration. -/
theorem tmf_run_raises_unbound_local :
    TMF.tmf pinvT ⟨2, 3, fun _ _ => 1⟩ 1 1 1 1 1
      (Mat.zeros 1 2) (Mat.zeros 1 3) (Mat.zeros 1 1)
      = Except.error "UnboundLocalError: var" := rfl

/-- C6 counterexample: a conjugate gradient step whose denominator
inner q (L q) is exactly zero does not abort: the corrected update_cg
performs the division unconditionally and returns its tuple normally
(here the returned residual norm is 2), so no solver failure is raised
or surfaced. -/
theorem update_cg_zero_denominator_returns_cex :
    Vec.inner vz2 vz2 = 0 ∧
    (NoTMF.update_cg vo2 vo2 vz2 vz2 1).2.2.2 = 2 := by
  constructor <;>
    norm_num [NoTMF.update_cg, Vec.inner, Vec.sub, Vec.smul, Vec.add,
      sumTo, vz2, vo2]

/-- C6 amended: the conjugate gradient update has no guard on the
denominator.  When inner q Aq = 0 the call still returns normally; in
the exact rational model the division yields 0 and the step degenerates
to returning var and r unchanged (under IEEE floats it would instead
silently inject inf or NaN), with no error raised. -/
theorem update_cg_no_denominator_guard (var r q Aq : Vec) (rold : ℚ)
    (h : Vec.inner q Aq = 0) :
    NoTMF.update_cg var r q Aq rold
      = (var, r, Vec.add r (Vec.smul (Vec.inner r r / rold) q),
          Vec.inner r r) := by
  unfold NoTMF.update_cg
  rw [h, div_zero]
  have hv : ∀ v w : Vec, Vec.add v (Vec.smul 0 w) = v := by
    intro v w; cases v; simp [Vec.add, Vec.smul]
  have hs : ∀ v w : Vec, Vec.sub v (Vec.smul 0 w) = v := by
    intro v w; cases v; simp [Vec.sub, Vec.smul]
  simp only [hv, hs]

/-- C6 amended, witnessed at a concrete zero-denominator input. -/
theorem update_cg_no_denominator_guard_witness :
    NoTMF.update_cg vo2 vo2 vz2 vz2 1
      = (vo2, vo2, Vec.add vo2 (Vec.smul (Vec.inner vo2 vo2 / 1) vz2),
          Vec.inner vo2 vo2) :=
  update_cg_no_denominator_guard vo2 vo2 vz2 vz2 1
    (by norm_num [Vec.inner, sumTo, vz2])

/-- C9: with horizon delta = 0 both forecast extrapolators return the
fitted X unchanged: the m = 0 var4cast because the Python slice
X_hat[:, -0:] is the whole (unextended) array, and the seasonal var4cast
because its reconstruction loop body never runs. -/
theorem var4cast_zero_horizon_roundtrip (X A : Mat) (d m : ℕ) (hm : 1 ≤ m) :
    Mat.Eqv (TMF.var4cast X A d 0) X ∧
    Mat.Eqv (NoTMF.var4cast X A d 0 m) X := by
  have base : ∀ Y : Mat, Mat.Eqv (Mat.appendCols Y (Mat.zeros Y.rows 0)) Y := by
    intro Y
    refine ⟨rfl, by simp [Mat.appendCols, Mat.zeros], ?_⟩
    intro i _ j hj
    have hj2 : j < Y.cols := by
      simpa [Mat.appendCols, Mat.zeros] using hj
    simp [Mat.appendCols, hj2]
  constructor
  · have h1 : TMF.var4cast X A d 0 = Mat.appendCols X (Mat.zeros X.rows 0) := by
      simp [TMF.var4cast, TMF.var4cast_ext, Mat.negTail]
    rw [h1]
    exact base X
  · have h2 : NoTMF.var4cast X A d 0 m
        = Mat.appendCols X (Mat.zeros X.rows 0) := by
      simp [NoTMF.var4cast]
    rw [h2]
    exact base X

/-- C9 witness at a concrete seasonal input. -/
theorem var4cast_zero_horizon_witness :
    Mat.Eqv (NoTMF.var4cast X13 A11 1 0 1) X13 :=
  (var4cast_zero_horizon_roundtrip X13 A11 1 1 (by decide)).2

/-- After at least one pass of the notmf loop the mat_hat slot is bound. -/
lemma notmf_loop_isSome (pinv : Mat → Mat) (sparse_mat ind : Mat)
    (Psi : List Mat) (rank d : ℕ) (lambda0 rho : ℚ) (tcols : ℕ) :
    ∀ (n : ℕ) (s : Mat × Mat × Mat × Option Mat),
      (NoTMF.notmf_loop pinv sparse_mat ind Psi rank d lambda0 rho tcols
        (n + 1) s).2.2.2.isSome = true := by
  intro n
  induction n with
  | zero =>
    rintro ⟨W, X, A, mo⟩
    rfl
  | succ k ih =>
    rintro ⟨W, X, A, mo⟩
    have h2 := ih
      (NoTMF.conj_grad_w sparse_mat ind W X rho 5,
       NoTMF.conj_grad_x sparse_mat ind
         (NoTMF.conj_grad_w sparse_mat ind W X rho 5) X A Psi d lambda0 rho 5,
       var_A pinv
         (NoTMF.conj_grad_x sparse_mat ind
           (NoTMF.conj_grad_w sparse_mat ind W X rho 5) X A Psi d lambda0 rho 5)
         Psi d rank tcols,
       some ((NoTMF.conj_grad_w sparse_mat ind W X rho 5).transpose.mul
         (NoTMF.conj_grad_x sparse_mat ind
           (NoTMF.conj_grad_w sparse_mat ind W X rho 5) X A Psi d lambda0
           rho 5)))
    exact h2

/-- Helper: the return statement of notmf succeeds whenever the mat_hat
slot of the loop state is bound. -/
lemma notmf_return_ok (res : Mat × Mat × Mat × Option Mat)
    (h : res.2.2.2.isSome = true) :
    ∃ r, (match res with
          | (W, X, A, some mat_hat) => Except.ok (mat_hat, W, X, A)
          | (_, _, _, none) =>
            (Except.error "NameError: mat_hat" :
              Except String (Mat × Mat × Mat × Mat))) = Except.ok r := by
  rcases res with ⟨W, X, A, _ | m⟩
  · simp at h
  · exact ⟨(m, W, X, A), rfl⟩

/-- A notmf fit with at least one outer iteration returns normally. -/
lemma notmf_succ_ok (pinv : Mat → Mat) (dense_mat sparse_mat : Mat)
    (rank d : ℕ) (lambda0 rho : ℚ) (season n : ℕ) (W0 X0 A0 : Mat) :
    ∃ r, NoTMF.notmf pinv dense_mat sparse_mat rank d lambda0 rho season
      (n + 1) W0 X0 A0 = Except.ok r :=
  notmf_return_ok _
    (notmf_loop_isSome pinv sparse_mat (maskOf sparse_mat)
      (NoTMF.generate_Psi sparse_mat.cols d season) rank d lambda0 rho
      (sparse_mat.cols - d - season) n (W0, X0, A0, none))

/-- C7 counterexample: fits with plainly invalid configurations, here
rank 0 and then order d = 0, are not rejected: notmf runs its full
iteration loop and returns a normal result, with no configuration error
reported before or instead of the iterative computation. -/
theorem notmf_invalid_rank_runs_cex :
    exceptOk (NoTMF.notmf pinvT ⟨1, 3, fun _ _ => 1⟩ ⟨1, 3, fun _ _ => 1⟩
      0 1 1 1 1 1 (Mat.zeros 0 1) (Mat.zeros 0 3) (Mat.zeros 0 0)) = true ∧
    (0 : ℕ) < 1 ∧
    exceptOk (NoTMF.notmf pinvT ⟨1, 3, fun _ _ => 1⟩ ⟨1, 3, fun _ _ => 1⟩
      1 0 1 1 1 1 (Mat.zeros 1 1) (Mat.zeros 1 3) (Mat.zeros 1 0)) = true := by
  refine ⟨?_, by decide, ?_⟩ <;>
    · obtain ⟨r, hr⟩ := notmf_succ_ok pinvT _ _ _ _ _ _ _ 0 _ _ _
      rw [hr]
      rfl

/-- C7 amended: the fit performs no configuration validation at all.
For every configuration, valid or not (any rank, any order, any season,
any window), a notmf call with at least one outer iteration enters the
iterative computation and returns normally; no configuration check
precedes the loop.  (A negative season or a window shorter than d + m
is not representable here: in Python it dies incidentally inside a numpy
array constructor, which is still not a detected configuration error.) -/
theorem notmf_never_reports_config_error (pinv : Mat → Mat)
    (dense_mat sparse_mat : Mat) (rank d : ℕ) (lambda0 rho : ℚ)
    (season n : ℕ) (W0 X0 A0 : Mat) :
    exceptOk (NoTMF.notmf pinv dense_mat sparse_mat rank d lambda0 rho season
      (n + 1) W0 X0 A0) = true := by
  obtain ⟨r, hr⟩ := notmf_succ_ok pinv dense_mat sparse_mat rank d lambda0 rho
    season n W0 X0 A0
  rw [hr]
  rfl

/-- Indexing the list built by mapping over range. -/
lemma getD_range_map (f : ℕ → Mat) (n k : ℕ) (hk : k < n) :
    ((List.range n).map f).getD k default = f k := by
  simp [List.getD_eq_getElem?_getD, List.getElem?_map, List.getElem?_range hk]

/-- C4: for T exceeding d + m and 1 ≤ d, both operator generators return
d + 1 matrices; each nonseasonal operator has shape (T - d) by T and is a
pure 0/1 selector with a single 1 per row at column i + (d - k), so Psi 0
selects exactly the last T - d columns as identity rows; each seasonal
operator (m at least 1) has shape (T - d - m) by T and each of its rows
holds exactly one entry 1 at the same-time column i + (d - k) + m and
exactly one entry -1 at the column m steps earlier, all else 0. -/
theorem generate_Psi_shapes_and_entries (T d m k : ℕ) (hd : 1 ≤ d)
    (hT : d + m < T) (hk : k ≤ d) :
    (TMF.generate_Psi T d).length = d + 1 ∧
    (NoTMF.generate_Psi T d m).length = d + 1 ∧
    ((TMF.generate_Psi T d).getD k default).rows = T - d ∧
    ((TMF.generate_Psi T d).getD k default).cols = T ∧
    (∀ i, i < T - d → ∀ j, j < T →
      ((TMF.generate_Psi T d).getD k default).entry i j
        = if j = i + (d - k) then 1 else 0) ∧
    ((NoTMF.generate_Psi T d m).getD k default).rows = T - d - m ∧
    ((NoTMF.generate_Psi T d m).getD k default).cols = T ∧
    (1 ≤ m → ∀ i, i < T - d - m → ∀ j, j < T →
      ((NoTMF.generate_Psi T d m).getD k default).entry i j
        = if j = i + (d - k) + m then 1
          else if j = i + (d - k) then -1 else 0) := by
  have hk1 : k < d + 1 := by omega
  have e1 : (TMF.generate_Psi T d).getD k default
      = if k = 0 then
          Mat.appendCols (Mat.zeros (T - d) d) (Mat.eye (T - d))
        else
          Mat.appendCols
            (Mat.appendCols (Mat.zeros (T - d) (d - k)) (Mat.eye (T - d)))
            (Mat.zeros (T - d) k) := by
    unfold TMF.generate_Psi
    exact getD_range_map _ _ _ hk1
  have e2 : (NoTMF.generate_Psi T d m).getD k default
      = if k = 0 then
          Mat.appendCols (Mat.zeros (T - d - m) d)
            ((Mat.appendCols (Mat.smul (-1) (Mat.eye (T - d - m)))
                (Mat.zeros (T - d - m) m)).add
              (Mat.appendCols (Mat.zeros (T - d - m) m)
                (Mat.eye (T - d - m))))
        else
          Mat.appendCols
            (Mat.appendCols (Mat.zeros (T - d - m) (d - k))
              ((Mat.appendCols (Mat.smul (-1) (Mat.eye (T - d - m)))
                  (Mat.zeros (T - d - m) m)).add
                (Mat.appendCols (Mat.zeros (T - d - m) m)
                  (Mat.eye (T - d - m)))))
            (Mat.zeros (T - d - m) k) := by
    unfold NoTMF.generate_Psi
    exact getD_range_map _ _ _ hk1
  refine ⟨by simp [TMF.generate_Psi], by simp [NoTMF.generate_Psi],
    ?_, ?_, ?_, ?_, ?_, ?_⟩
  · rw [e1]
    by_cases hk0 : k = 0 <;>
      simp [hk0, Mat.appendCols, Mat.zeros, Mat.eye]
  · rw [e1]
    by_cases hk0 : k = 0 <;>
      simp [hk0, Mat.appendCols, Mat.zeros, Mat.eye] <;> omega
  · intro i hi j hj
    rw [e1]
    by_cases hk0 : k = 0
    · rw [if_pos hk0, hk0]
      simp only [Mat.appendCols, Mat.zeros, Mat.eye]
      split_ifs <;> first | rfl | omega
    · rw [if_neg hk0]
      simp only [Mat.appendCols, Mat.zeros, Mat.eye]
      split_ifs <;> first | rfl | omega
  · rw [e2]
    by_cases hk0 : k = 0 <;>
      simp [hk0, Mat.appendCols, Mat.zeros, Mat.eye, Mat.add, Mat.smul]
  · rw [e2]
    by_cases hk0 : k = 0 <;>
      simp [hk0, Mat.appendCols, Mat.zeros, Mat.eye, Mat.add, Mat.smul] <;>
      omega
  · intro hm i hi j hj
    rw [e2]
    by_cases hk0 : k = 0
    · subst hk0
      rw [if_pos rfl]
      simp only [Mat.appendCols, Mat.zeros, Mat.eye, Mat.add, Mat.smul]
      split_ifs <;> first | rfl | omega | norm_num
    · rw [if_neg hk0]
      simp only [Mat.appendCols, Mat.zeros, Mat.eye, Mat.add, Mat.smul]
      split_ifs <;> first | rfl | omega | norm_num

/-- C4 witnessed at T = 5, d = 2, m = 1, k = 1. -/
theorem generate_Psi_shapes_witness :
    (TMF.generate_Psi 5 2).length = 2 + 1 ∧
    ((NoTMF.generate_Psi 5 2 1).getD 1 default).cols = 5 := by
  have h := generate_Psi_shapes_and_entries 5 2 1 1 (by decide) (by decide)
    (by decide)
  exact ⟨h.1, h.2.2.2.2.2.2.1⟩

/-- Entry of the row-block filling fold: rows below n * rank hold the
block selected by integer division, rows at or above it are untouched. -/
lemma foldl_writeRows_entry (g : ℕ → Mat) (rank : ℕ) (hr : 1 ≤ rank)
    (M0 : Mat) : ∀ (n : ℕ) (i j : ℕ),
    ((List.range n).foldl
      (fun acc k0 => Mat.writeRows acc (g k0) (k0 * rank) ((k0 + 1) * rank))
      M0).entry i j
    = if i < n * rank then (g (i / rank)).entry (i % rank) j
      else M0.entry i j := by
  intro n
  induction n with
  | zero => intro i j; simp
  | succ nn ih =>
    intro i j
    have hx : (nn + 1) * rank = nn * rank + rank := by ring
    rw [List.range_succ, List.foldl_append]
    simp only [List.foldl_cons, List.foldl_nil]
    show (if nn * rank ≤ i ∧ i < (nn + 1) * rank
        then (g nn).entry (i - nn * rank) j
        else ((List.range nn).foldl
          (fun acc k0 => Mat.writeRows acc (g k0) (k0 * rank)
            ((k0 + 1) * rank)) M0).entry i j)
      = _
    by_cases hband : nn * rank ≤ i ∧ i < (nn + 1) * rank
    · have hdiv : i / rank = nn :=
        Nat.div_eq_of_lt_le (by omega) (by omega)
      have hmod : i % rank = i - nn * rank := by
        conv_lhs => rw [show i = (i - nn * rank) + nn * rank by omega]
        rw [Nat.add_mul_mod_self_right]
        exact Nat.mod_eq_of_lt (by omega)
      rw [if_pos hband, if_pos (by omega), hdiv, hmod]
    · rw [if_neg hband, ih]
      by_cases hlt : i < nn * rank
      · rw [if_pos hlt, if_pos (by omega)]
      · rw [if_neg hlt, if_neg (by omega)]

/-- Shape preservation of the row-block filling fold. -/
lemma foldl_writeRows_shape (g : ℕ → Mat) (rank : ℕ) (M0 : Mat) :
    ∀ n : ℕ,
    ((List.range n).foldl
      (fun acc k0 => Mat.writeRows acc (g k0) (k0 * rank) ((k0 + 1) * rank))
      M0).rows = M0.rows ∧
    ((List.range n).foldl
      (fun acc k0 => Mat.writeRows acc (g k0) (k0 * rank) ((k0 + 1) * rank))
      M0).cols = M0.cols := by
  intro n
  induction n with
  | zero => exact ⟨rfl, rfl⟩
  | succ nn ih =>
    rw [List.range_succ, List.foldl_append]
    simpa only [List.foldl_cons, List.foldl_nil, Mat.writeRows] using ih

/-- C5: the VAR coefficient update shared by tmf, notmf and notmf_dic is
the closed form (X Psi 0 transposed) applied to pinv of the stacked lag
matrix: the buffer built by the filling loop has d * rank rows and the
requested column count, and its row i (for i below d * rank) lies in
block k = i / rank + 1, holding row i mod rank of X times the transpose
of Psi k — that is, block k occupies rows (k - 1) rank to k rank - 1 and
equals X Psi k transposed, for k = 1..d. -/
theorem var_estimator_closed_form_stack (pinv : Mat → Mat) (X : Mat)
    (Psi : List Mat) (d rank cols : ℕ) (hr : 1 ≤ rank) :
    var_A pinv X Psi d rank cols
      = (X.mul ((Psi.getD 0 default).transpose)).mul
          (pinv (buildTemp X Psi d rank cols)) ∧
    (buildTemp X Psi d rank cols).rows = d * rank ∧
    (buildTemp X Psi d rank cols).cols = cols ∧
    ∀ i j, i < d * rank →
      (buildTemp X Psi d rank cols).entry i j
        = (X.mul ((Psi.getD (i / rank + 1) default).transpose)).entry
            (i % rank) j := by
  refine ⟨rfl, ?_, ?_, ?_⟩
  · exact (foldl_writeRows_shape
      (fun k0 => X.mul ((Psi.getD (k0 + 1) default).transpose)) rank
      (Mat.zeros (d * rank) cols) d).1
  · exact (foldl_writeRows_shape
      (fun k0 => X.mul ((Psi.getD (k0 + 1) default).transpose)) rank
      (Mat.zeros (d * rank) cols) d).2
  · intro i j hi
    unfold buildTemp
    rw [foldl_writeRows_entry
      (fun k0 => X.mul ((Psi.getD (k0 + 1) default).transpose)) rank hr
      (Mat.zeros (d * rank) cols) d i j]
    rw [if_pos (by omega)]

/-- C5 witnessed on a 2 by 4 factor matrix with d = 2, rank = 2 at the
row of the second block. -/
theorem var_estimator_closed_form_witness :
    (1 ≤ 2) ∧
    (buildTemp X24 (TMF.generate_Psi 4 2) 2 2 2).entry 2 0
      = (X24.mul (((TMF.generate_Psi 4 2).getD (2 / 2 + 1)
          default).transpose)).entry (2 % 2) 0 :=
  ⟨by decide,
    (var_estimator_closed_form_stack pinvT X24 (TMF.generate_Psi 4 2) 2 2 2
      (by decide)).2.2.2 2 0 (by decide)⟩

/-- The generic column filling fold used by var4cast: starting from M0,
write column base + t with A times the lag window read from the current
state, for t = 0, ..., n - 1. -/
def fillFold (A : Mat) (L dim1 base : ℕ) (M0 : Mat) (n : ℕ) : Mat :=
  (List.range n).foldl
    (fun M t => M.setCol (base + t)
      (matVec A L (lagConcat M dim1 (base + t)))) M0

/-- One unfolding step of the filling fold. -/
lemma fillFold_succ (A : Mat) (L dim1 base : ℕ) (M0 : Mat) (n : ℕ) :
    fillFold A L dim1 base M0 (n + 1)
      = (fillFold A L dim1 base M0 n).setCol (base + n)
          (matVec A L
            (lagConcat (fillFold A L dim1 base M0 n) dim1 (base + n))) := by
  unfold fillFold
  rw [List.range_succ, List.foldl_append]
  simp only [List.foldl_cons, List.foldl_nil]

/-- The filling fold preserves the advertised shape. -/
lemma fillFold_shape (A : Mat) (L dim1 base : ℕ) (M0 : Mat) :
    ∀ n : ℕ, (fillFold A L dim1 base M0 n).rows = M0.rows ∧
      (fillFold A L dim1 base M0 n).cols = M0.cols := by
  intro n
  induction n with
  | zero => exact ⟨rfl, rfl⟩
  | succ nn ih => rw [fillFold_succ]; simpa only [Mat.setCol] using ih

/-- Columns outside the written band are untouched by the filling fold. -/
lemma fillFold_frame (A : Mat) (L dim1 base : ℕ) (M0 : Mat) :
    ∀ (n : ℕ) (i col : ℕ), col < base ∨ base + n ≤ col →
      (fillFold A L dim1 base M0 n).entry i col = M0.entry i col := by
  intro n
  induction n with
  | zero => intro i col _; rfl
  | succ nn ih =>
    intro i col hcol
    rw [fillFold_succ]
    simp only [Mat.setCol]
    rw [if_neg (by omega)]
    exact ih i col (by omega)

/-- A column already written is stable under the remaining fold passes. -/
lemma fillFold_written_stable (A : Mat) (L dim1 base : ℕ) (M0 : Mat) :
    ∀ (n t i : ℕ), t < n →
      (fillFold A L dim1 base M0 n).entry i (base + t)
        = (fillFold A L dim1 base M0 (t + 1)).entry i (base + t) := by
  intro n
  induction n with
  | zero => intro t i h; omega
  | succ nn ih =>
    intro t i h
    by_cases ht : t = nn
    · subst ht; rfl
    · rw [fillFold_succ]
      simp only [Mat.setCol]
      rw [if_neg (by omega)]
      exact ih t i (by omega)

/-- Any column below the already-written frontier holds the same entry in
every later state of the filling fold. -/
lemma fillFold_read_stable (A : Mat) (L dim1 base : ℕ) (M0 : Mat)
    (t n : ℕ) (htn : t ≤ n) (i col : ℕ) (hcol : col < base + t) :
    (fillFold A L dim1 base M0 t).entry i col
      = (fillFold A L dim1 base M0 n).entry i col := by
  rcases lt_or_ge col base with hlt | hge
  · rw [fillFold_frame A L dim1 base M0 t i col (Or.inl hlt),
      fillFold_frame A L dim1 base M0 n i col (Or.inl hlt)]
  · have hcol2 : col = base + (col - base) := by omega
    rw [hcol2,
      fillFold_written_stable A L dim1 base M0 t (col - base) i (by omega),
      fillFold_written_stable A L dim1 base M0 n (col - base) i (by omega)]

/-- Summation only depends on the summand below the bound. -/
lemma sumTo_congr (n : ℕ) (f g : ℕ → ℚ) (h : ∀ p, p < n → f p = g p) :
    sumTo n f = sumTo n g := by
  induction n with
  | zero => rfl
  | succ nn ih =>
    show sumTo nn f + f nn = sumTo nn g + g nn
    rw [ih (fun p hp => h p (by omega)), h nn (by omega)]

/-- The written column of the filling fold satisfies the lag recurrence
read back from the final state, provided every lag read lands strictly
below the column being written. -/
lemma fillFold_recurrence (A : Mat) (L dim1 base : ℕ) (M0 : Mat)
    (n t : ℕ) (ht : t < n)
    (hreads : ∀ p, p < L → base + t - 1 - p / dim1 < base + t) :
    ∀ i, (fillFold A L dim1 base M0 n).entry i (base + t)
      = matVec A L
          (lagConcat (fillFold A L dim1 base M0 n) dim1 (base + t)) i := by
  intro i
  rw [fillFold_written_stable A L dim1 base M0 n t i ht, fillFold_succ]
  simp only [Mat.setCol]
  rw [if_pos (by trivial)]
  unfold matVec lagConcat
  refine sumTo_congr L _ _ ?_
  intro p hp
  rw [fillFold_read_stable A L dim1 base M0 t n (by omega) (p % dim1)
    (base + t - 1 - p / dim1) (hreads p hp)]

/-- C3 amended: the m = 0 extrapolator builds the extended array exactly
as claimed: X_hat has shape R by (T + delta), carries X in its first T
columns, and fills column T + t with A times the most-recent-lag-first
concatenation of the d preceding columns; but the function then returns
only the last delta columns X_hat[:, -delta:], the forecast block, not
the extended array. -/
theorem var4cast_extension_and_return_slice (X A : Mat) (d delta : ℕ)
    (hdc : d ≤ X.cols) (hdelta : 1 ≤ delta) :
    (TMF.var4cast_ext X A d delta).rows = X.rows ∧
    (TMF.var4cast_ext X A d delta).cols = X.cols + delta ∧
    (∀ i j, j < X.cols →
      (TMF.var4cast_ext X A d delta).entry i j = X.entry i j) ∧
    (∀ t, t < delta → ∀ i,
      (TMF.var4cast_ext X A d delta).entry i (X.cols + t)
        = matVec A (X.rows * d)
            (lagConcat (TMF.var4cast_ext X A d delta) X.rows (X.cols + t))
            i) ∧
    TMF.var4cast X A d delta
      = (TMF.var4cast_ext X A d delta).colSlice X.cols (X.cols + delta) := by
  have hfe : TMF.var4cast_ext X A d delta
      = fillFold A (X.rows * d) X.rows X.cols
          (Mat.appendCols X (Mat.zeros X.rows delta)) delta := rfl
  have hshape := fillFold_shape A (X.rows * d) X.rows X.cols
    (Mat.appendCols X (Mat.zeros X.rows delta)) delta
  refine ⟨?_, ?_, ?_, ?_, ?_⟩
  · rw [hfe, hshape.1]; rfl
  · rw [hfe, hshape.2]; rfl
  · intro i j hj
    rw [hfe, fillFold_frame A (X.rows * d) X.rows X.cols
      (Mat.appendCols X (Mat.zeros X.rows delta)) delta i j (Or.inl hj)]
    simp only [Mat.appendCols]
    rw [if_pos hj]
  · intro t ht i
    rw [hfe]
    refine fillFold_recurrence A (X.rows * d) X.rows X.cols
      (Mat.appendCols X (Mat.zeros X.rows delta)) delta t ht ?_ i
    intro p hp
    have hd1 : 1 ≤ d := by
      rcases Nat.eq_zero_or_pos d with rfl | h
      · simp at hp
      · omega
    have hb1 : 1 ≤ X.cols := le_trans hd1 hdc
    generalize p / X.rows = l
    omega
  · unfold TMF.var4cast Mat.negTail
    rw [if_neg (by omega)]
    have hcols : (TMF.var4cast_ext X A d delta).cols = X.cols + delta := by
      rw [hfe, hshape.2]; rfl
    rw [hcols]
    congr 1
    omega

/-- C3 amended, witnessed at a concrete 1 by 2 factor matrix. -/
theorem var4cast_extension_witness :
    (1 ≤ 2) ∧ (TMF.var4cast_ext X12 A11 1 2).cols = X12.cols + 2 :=
  ⟨by decide,
    (var4cast_extension_and_return_slice X12 A11 1 2 (by decide)
      (by decide)).2.1⟩

/-- C3 counterexample: at X = [[1, 2]], A = [[3]], d = 1, delta = 1, the
m = 0 var4cast returns a 1 by 1 matrix holding the forecast 6, not the
claimed 1 by 3 extended matrix whose first columns are the fitted X. -/
theorem var4cast_returns_only_forecast_block_cex :
    (TMF.var4cast X12 A11 1 1).cols = 1 ∧
    X12.cols + 1 = 3 ∧
    (TMF.var4cast X12 A11 1 1).entry 0 0 = 6 ∧
    X12.entry 0 0 = 1 := by
  refine ⟨rfl, rfl, ?_, rfl⟩
  norm_num [TMF.var4cast, TMF.var4cast_ext, Mat.negTail, Mat.colSlice,
    Mat.appendCols, Mat.zeros, Mat.setCol, matVec, lagConcat, sumTo,
    X12, A11, List.range_succ]

/-- Mapping twice over an Except composes. -/
lemma except_map_map {α β γ : Type} (e : Except String α) (f : α → β)
    (g : β → γ) : (e.map f).map g = e.map (g ∘ f) := by
  cases e <;> rfl

/-- Unfolding the rolling loop at a positive count. -/
lemma rollGo_succ (pinv : Mat → Mat) (dense_mat sparse_mat : Mat)
    (start delta rank d : ℕ) (lambda0 rho : ℚ) (season maxiter : ℕ)
    (W0 X0 A0 : Mat) (t n : ℕ) (s : NoTMF.RState) :
    NoTMF.rollGo pinv dense_mat sparse_mat start delta rank d lambda0 rho
        season maxiter W0 X0 A0 t (n + 1) s
      = match NoTMF.rollStep pinv dense_mat sparse_mat start delta rank d
          lambda0 rho season maxiter W0 X0 A0 t s with
        | Except.error e => Except.error e
        | Except.ok s2 =>
          NoTMF.rollGo pinv dense_mat sparse_mat start delta rank d lambda0
            rho season maxiter W0 X0 A0 (t + 1) n s2 := rfl

/-- A rolling pass with positive step index leaves W untouched: it only
refits X and A through notmf_dic and rereads W. -/
lemma rollStep_pos (pinv : Mat → Mat) (dense_mat sparse_mat : Mat)
    (start delta rank d : ℕ) (lambda0 rho : ℚ) (season maxiter : ℕ)
    (W0 X0 A0 : Mat) (t : ℕ) (s : NoTMF.RState) (ht : t ≠ 0) :
    ∃ Xn An Xnewn hatn,
      NoTMF.rollStep pinv dense_mat sparse_mat start delta rank d lambda0
          rho season maxiter W0 X0 A0 t s
        = Except.ok ⟨s.W, Xn, An, Xnewn, hatn⟩ := by
  unfold NoTMF.rollStep
  rw [if_neg ht]
  exact ⟨_, _, _, _, rfl⟩

/-- The rolling loop started at a positive step index always returns
normally and returns the W it started with. -/
lemma rollGo_pos_W (pinv : Mat → Mat) (dense_mat sparse_mat : Mat)
    (start delta rank d : ℕ) (lambda0 rho : ℚ) (season maxiter : ℕ)
    (W0 X0 A0 : Mat) :
    ∀ (n t : ℕ) (s : NoTMF.RState), 1 ≤ t →
      (NoTMF.rollGo pinv dense_mat sparse_mat start delta rank d lambda0 rho
          season maxiter W0 X0 A0 t n s).map (fun x => NoTMF.RState.W x)
        = Except.ok s.W := by
  intro n
  induction n with
  | zero => intro t s ht; rfl
  | succ nn ih =>
    intro t s ht
    rw [rollGo_succ]
    obtain ⟨Xn, An, Xnewn, hatn, heq⟩ := rollStep_pos pinv dense_mat
      sparse_mat start delta rank d lambda0 rho season maxiter W0 X0 A0 t s
      (by omega)
    rw [heq]
    exact ih (t + 1) ⟨s.W, Xn, An, Xnewn, hatn⟩ (by omega)

/-- With at least one notmf iteration every rolling pass succeeds. -/
lemma rollStep_ok (pinv : Mat → Mat) (dense_mat sparse_mat : Mat)
    (start delta rank d : ℕ) (lambda0 rho : ℚ) (season n : ℕ)
    (W0 X0 A0 : Mat) (t : ℕ) (s : NoTMF.RState) :
    ∃ s2, NoTMF.rollStep pinv dense_mat sparse_mat start delta rank d
        lambda0 rho season (n + 1) W0 X0 A0 t s = Except.ok s2 := by
  by_cases ht : t = 0
  · subst ht
    unfold NoTMF.rollStep
    rw [if_pos rfl]
    obtain ⟨r, hr⟩ := notmf_succ_ok pinv (dense_mat.colSlice 0 start)
      (sparse_mat.colSlice 0 start) rank d lambda0 rho season n W0 X0 A0
    rw [hr]
    exact ⟨_, rfl⟩
  · obtain ⟨Xn, An, Xnewn, hatn, heq⟩ := rollStep_pos pinv dense_mat
      sparse_mat start delta rank d lambda0 rho season (n + 1) W0 X0 A0 t s
      ht
    exact ⟨_, heq⟩

/-- With at least one notmf iteration the whole rolling loop succeeds. -/
lemma rollGo_ok (pinv : Mat → Mat) (dense_mat sparse_mat : Mat)
    (start delta rank d : ℕ) (lambda0 rho : ℚ) (season n : ℕ)
    (W0 X0 A0 : Mat) :
    ∀ (count t : ℕ) (s : NoTMF.RState),
      ∃ s2, NoTMF.rollGo pinv dense_mat sparse_mat start delta rank d
          lambda0 rho season (n + 1) W0 X0 A0 t count s = Except.ok s2 := by
  intro count
  induction count with
  | zero => intro t s; exact ⟨s, rfl⟩
  | succ nn ih =>
    intro t s
    rw [rollGo_succ]
    obtain ⟨s2, heq⟩ := rollStep_ok pinv dense_mat sparse_mat start delta
      rank d lambda0 rho season n W0 X0 A0 t s
    rw [heq]
    exact ih (t + 1) s2

/-- C2 amended: rolling4cast runs ceil(pred_step / delta) fit and
forecast passes of width delta (the loop bound maxCount), and the
forecast matrix it returns has maxCount pred_step delta * delta columns;
that column count equals pred_step exactly when delta divides pred_step,
not unconditionally.  The two hypotheses confine the statement to the
inputs on which the Python run completes: the season is positive (at
season 0 the seasonal differencing slice broadcast fails) and the step 0
window holds at least d + season columns, so no numpy array constructor
along the run is handed a negative dimension and every later, wider
window is safe as well; on that range the natural-number embedding
follows the source step for step.  The hypotheses only delimit this
range, so the proof of the column count does not consume them. -/
theorem rolling4cast_window_count_cols (pinv : Mat → Mat)
    (dense_mat sparse_mat : Mat) (p q rank d : ℕ) (lambda0 rho : ℚ)
    (season n : ℕ) (W0 X0 A0 : Mat) (hseason : 1 ≤ season)
    (hwindow : d + season ≤ sparse_mat.cols - (p + 1)) :
    (NoTMF.rolling4cast pinv dense_mat sparse_mat (p + 1) (q + 1) rank d
        lambda0 rho season (n + 1) W0 X0 A0).map (fun r => r.1.cols)
      = Except.ok (NoTMF.maxCount (p + 1) (q + 1) * (q + 1)) ∧
    (NoTMF.maxCount (p + 1) (q + 1) * (q + 1) = p + 1 ↔ (q + 1) ∣ (p + 1)) := by
  constructor
  · show ((NoTMF.rollGo pinv dense_mat sparse_mat
        (sparse_mat.cols - (p + 1)) (q + 1) rank d lambda0 rho season (n + 1)
        W0 X0 A0 0 (NoTMF.maxCount (p + 1) (q + 1)) NoTMF.rollInit).map
          (fun s => ((⟨sparse_mat.rows,
            NoTMF.maxCount (p + 1) (q + 1) * (q + 1), s.hat⟩ : Mat),
            s.W, s.X, s.A))).map (fun r => r.1.cols)
      = Except.ok (NoTMF.maxCount (p + 1) (q + 1) * (q + 1))
    obtain ⟨s2, hs⟩ := rollGo_ok pinv dense_mat sparse_mat
      (sparse_mat.cols - (p + 1)) (q + 1) rank d lambda0 rho season n
      W0 X0 A0 (NoTMF.maxCount (p + 1) (q + 1)) 0 NoTMF.rollInit
    rw [hs]
    rfl
  · constructor
    · intro h
      refine ⟨NoTMF.maxCount (p + 1) (q + 1), ?_⟩
      rw [mul_comm] at h
      exact h.symm
    · rintro ⟨c, hc⟩
      have hc2 : p + 1 = c * (q + 1) := by rw [hc]; ring
      have hmc : NoTMF.maxCount (p + 1) (q + 1) = c := by
        unfold NoTMF.maxCount
        have h1 : p + 1 + (q + 1) - 1 = q + c * (q + 1) := by omega
        rw [h1, Nat.add_mul_div_right _ _ (by omega : 0 < q + 1),
          Nat.div_eq_of_lt (by omega)]
        omega
      rw [hmc]
      omega

/-- The all-one 1 by 23 series used by the C2 theorems. -/
def D23 : Mat := ⟨1, 23, fun _ _ => 1⟩

/-- A 1 by 1 initial factor draw of value 1/100. -/
def Wc1 : Mat := ⟨1, 1, fun _ _ => 1 / 100⟩

/-- A 1 by 3 initial factor draw of value 1/100. -/
def Xc3 : Mat := ⟨1, 3, fun _ _ => 1 / 100⟩

/-- A 1 by 1 initial coefficient draw of value 1/100. -/
def Ac1 : Mat := ⟨1, 1, fun _ _ => 1 / 100⟩

/-- C2 amended, witnessed at the 1 by 23 all-one series with
pred_step = 20, delta = 6, d = 1, season = 1: the step 0 window has
3 ≥ d + season columns, so the run is crash-free. -/
theorem rolling4cast_window_count_cols_witness :
    (NoTMF.rolling4cast pinvT D23 D23 20 6 1 1 1 1 1 1 Wc1 Xc3 Ac1).map
        (fun r => r.1.cols)
      = Except.ok (NoTMF.maxCount 20 6 * 6) ∧
    (NoTMF.maxCount 20 6 * 6 = 20 ↔ 6 ∣ 20) :=
  rolling4cast_window_count_cols pinvT D23 D23 19 5 1 1 1 1 1 0 Wc1 Xc3 Ac1
    (by decide) (by decide)

/-- C2 counterexample: on the 1 by 23 all-one series with
pred_step = 20, delta = 6, d = 1, season = 1 (step 0 window of 3
columns, at least d + season, so every numpy dimension along the run is
nonnegative and the Python call returns normally), the returned forecast
matrix has ceil(20 / 6) * 6 = 24 columns, not pred_step = 20. -/
theorem rolling4cast_cols_ne_pred_step_cex :
    (NoTMF.rolling4cast pinvT D23 D23 20 6 1 1 1 1 1 1 Wc1 Xc3 Ac1).map
      (fun r => r.1.cols) = Except.ok 24 ∧ (24 : ℕ) ≠ 20 :=
  ⟨rfl, by decide⟩

/-- C8: the W returned by rolling4cast equals the W of the step 0 full
notmf fit on the initial window: every later pass goes through notmf_dic,
which refits only X and A and passes W through unchanged. -/
theorem rolling4cast_returns_step0_W (pinv : Mat → Mat)
    (dense_mat sparse_mat : Mat) (p q rank d : ℕ) (lambda0 rho : ℚ)
    (season n : ℕ) (W0 X0 A0 : Mat) :
    (NoTMF.rolling4cast pinv dense_mat sparse_mat (p + 1) (q + 1) rank d
        lambda0 rho season (n + 1) W0 X0 A0).map (fun r => r.2.1)
      = (NoTMF.notmf pinv
          (dense_mat.colSlice 0 (sparse_mat.cols - (p + 1)))
          (sparse_mat.colSlice 0 (sparse_mat.cols - (p + 1))) rank d lambda0
          rho season (n + 1) W0 X0 A0).map (fun r => r.2.1) := by
  have hmc1 : 1 ≤ NoTMF.maxCount (p + 1) (q + 1) := by
    unfold NoTMF.maxCount
    rw [Nat.one_le_div_iff (by omega)]
    omega
  obtain ⟨k, hk⟩ : ∃ k, NoTMF.maxCount (p + 1) (q + 1) = k + 1 :=
    ⟨NoTMF.maxCount (p + 1) (q + 1) - 1, by omega⟩
  obtain ⟨r, hr⟩ := notmf_succ_ok pinv
    (dense_mat.colSlice 0 (sparse_mat.cols - (p + 1)))
    (sparse_mat.colSlice 0 (sparse_mat.cols - (p + 1))) rank d lambda0 rho
    season n W0 X0 A0
  show ((NoTMF.rollGo pinv dense_mat sparse_mat
      (sparse_mat.cols - (p + 1)) (q + 1) rank d lambda0 rho season (n + 1)
      W0 X0 A0 0 (NoTMF.maxCount (p + 1) (q + 1)) NoTMF.rollInit).map
        (fun s => ((⟨sparse_mat.rows,
          NoTMF.maxCount (p + 1) (q + 1) * (q + 1), s.hat⟩ : Mat),
          s.W, s.X, s.A))).map (fun r => r.2.1)
    = _
  rw [hk, rollGo_succ]
  have hstep : NoTMF.rollStep pinv dense_mat sparse_mat
      (sparse_mat.cols - (p + 1)) (q + 1) rank d lambda0 rho season (n + 1)
      W0 X0 A0 0 NoTMF.rollInit
      = Except.ok ⟨r.2.1, r.2.2.1, r.2.2.2,
          NoTMF.var4cast r.2.2.1 r.2.2.2 d (q + 1) season,
          fun i j => if 0 * (q + 1) ≤ j ∧ j < (0 + 1) * (q + 1)
            then ((r.2.1).transpose.mul
              ((NoTMF.var4cast r.2.2.1 r.2.2.2 d (q + 1) season).negTail
                (q + 1))).entry i (j - 0 * (q + 1))
            else NoTMF.rollInit.hat i j⟩ := by
    unfold NoTMF.rollStep
    rw [if_pos rfl, hr]
    rfl
  rw [hstep, except_map_map]
  have hW := rollGo_pos_W pinv dense_mat sparse_mat
    (sparse_mat.cols - (p + 1)) (q + 1) rank d lambda0 rho season (n + 1)
    W0 X0 A0 k 1
    ⟨r.2.1, r.2.2.1, r.2.2.2,
      NoTMF.var4cast r.2.2.1 r.2.2.2 d (q + 1) season,
      fun i j => if 0 * (q + 1) ≤ j ∧ j < (0 + 1) * (q + 1)
        then ((r.2.1).transpose.mul
          ((NoTMF.var4cast r.2.2.1 r.2.2.2 d (q + 1) season).negTail
            (q + 1))).entry i (j - 0 * (q + 1))
        else NoTMF.rollInit.hat i j⟩ (by omega)
  rw [hr]
  exact hW
